import Mathlib

/-!
Shallow embedding of the `taskrs` task store (`src/lib.rs`, the final
`TaskStore` variant).  Each store operation is modelled as a pure function on
the in-memory task collection (`List TaskItem`).  The persistence layer is
modelled by the return type: an operation that calls `write_tasks` with a
collection `c` returns `some c`; an operation that returns early without
writing (absent id, empty reset, unreadable confirmation input) returns
`none`.  Interactive input for `reset_tasks` is an explicit `Option String`
parameter: `some s` is the line read from stdin, `none` a read error.
Task ids are Rust `u32` values modelled as `Nat`; the one place the code does
arithmetic on them (`max_id + 1` in `add_task`) wraps modulo `2^32`, the
two's-complement semantics of a release build.
-/

namespace Taskrs

/-- The `u32` modulus, `2^32`. -/
def u32Mod : Nat := 4294967296

/-- Rust `struct TaskItem { id: u32, task: String, done: bool }`. -/
structure TaskItem where
  id : Nat
  task : String
  done : Bool
deriving Repr, DecidableEq

/-- Constructor `TaskItem::new(id, task)`: builds a task with `done = false`. -/
def TaskItem.new (id : Nat) (task : String) : TaskItem :=
  { id := id, task := task, done := false }

/-- The list of ids of a collection, in sequence order. -/
def ids (l : List TaskItem) : List Nat := l.map TaskItem.id

/-- Rust `tasks.iter().map(|task| task.id).max().unwrap_or(0)`. -/
def maxId (l : List TaskItem) : Nat := (ids l).foldr max 0

/-- Operation `TaskStore::add_task`: appends a fresh task whose id is `max_id + 1`
computed in `u32` arithmetic (wrapping at `2^32`), then writes. -/
def add_task (l : List TaskItem) (task : String) : List TaskItem :=
  l ++ [TaskItem.new ((maxId l + 1) % u32Mod) task]

/-- Rust `tasks.iter().position(p)`: index of the first element satisfying `p`. -/
def position (p : TaskItem → Bool) : List TaskItem → Option Nat
  | [] => none
  | t :: ts => if p t then some 0 else (position p ts).map (· + 1)

/-- Operation `TaskStore::update_task`: replaces the description of the first task with
the given id and writes; `none` when the id is absent ("Task not found",
early return, no write). -/
def update_task : List TaskItem → Nat → String → Option (List TaskItem)
  | [], _, _ => none
  | t :: ts, i, s =>
    if t.id = i then some ({ t with task := s } :: ts)
    else (update_task ts i s).map (t :: ·)

/-- Operation `TaskStore::mark_task`: sets the done flag of the first task with the
given id and writes; `none` when the id is absent (no write). -/
def mark_task : List TaskItem → Nat → Bool → Option (List TaskItem)
  | [], _, _ => none
  | t :: ts, i, d =>
    if t.id = i then some ({ t with done := d } :: ts)
    else (mark_task ts i d).map (t :: ·)

/-- Operation `TaskStore::delete_task`: removes the first task with the given id and
writes; `none` when the id is absent (no write). -/
def delete_task : List TaskItem → Nat → Option (List TaskItem)
  | [], _ => none
  | t :: ts, i =>
    if t.id = i then some ts
    else (delete_task ts i).map (t :: ·)

/-- Indexed assignment `tasks[index].id = v` (index is always in range at the
call sites, as in the Rust code; out of range leaves the list unchanged). -/
def setId : List TaskItem → Nat → Nat → List TaskItem
  | [], _, _ => []
  | t :: ts, 0, v => { t with id := v } :: ts
  | t :: ts, n + 1, v => t :: setId ts n v

/-- Operation `TaskStore::swap_tasks`: finds the positions of `id1` and `id2` in the
loaded collection, then performs `tasks[index1].id = id2` followed by
`tasks[index2].id = id1` and writes; `none` when either id is absent
("Task 1 not found" / "Task 2 not found", no write). -/
def swap_tasks (l : List TaskItem) (id1 id2 : Nat) : Option (List TaskItem) :=
  match position (fun t => t.id == id1) l with
  | none => none
  | some i1 =>
    match position (fun t => t.id == id2) l with
    | none => none
    | some i2 => some (setId (setId l i1 id2) i2 id1)

/-- Operation `TaskStore::list_tasks`: filters out done tasks unless `all` is set, then
stable-sorts by id (`sort_by_key`).  First component: the rows printed;
second component: the write effect, `none` because the function never calls
`write_tasks`. -/
def list_tasks (l : List TaskItem) (all : Bool) :
    List TaskItem × Option (List TaskItem) :=
  ((l.filter (fun t => !t.done || all)).mergeSort
      (fun a b => decide (a.id ≤ b.id)),
    none)

/-- Model of Rust `String::to_lowercase` on the confirmation line:
per-character lowercasing.  `Char.toLower` lowercases only ASCII, while the
Rust mapping is full Unicode, but the two pipelines agree on the final
`== "y"` comparison: `'Y'` is the only character whose Unicode lowercase is
`'y'` (and ASCII), no case mapping produces or consumes a White_Space
character, and the multi-character expansions (such as `'İ'`) only ever
yield non-whitespace characters other than `'y'`, on which both sides
decline. -/
def lowercase (s : String) : List Char := s.data.map Char.toLower

/-- Model of Rust `char::is_whitespace`: the Unicode `White_Space` property
(U+0009–U+000D, U+0020, U+0085, U+00A0, U+1680, U+2000–U+200A, U+2028,
U+2029, U+202F, U+205F, U+3000). -/
def isRustWhitespace (c : Char) : Bool :=
  (0x09 ≤ c.toNat && c.toNat ≤ 0x0D) || c.toNat == 0x20 ||
  c.toNat == 0x85 || c.toNat == 0xA0 || c.toNat == 0x1680 ||
  (0x2000 ≤ c.toNat && c.toNat ≤ 0x200A) || c.toNat == 0x2028 ||
  c.toNat == 0x2029 || c.toNat == 0x202F || c.toNat == 0x205F ||
  c.toNat == 0x3000

/-- Model of Rust `str::trim`: strips leading and trailing Unicode
`White_Space` characters. -/
def trimWs (cs : List Char) : List Char :=
  ((cs.dropWhile isRustWhitespace).reverse.dropWhile isRustWhitespace).reverse

/-- Rust `input.to_lowercase().trim() == "y"`: the confirmation test of
`reset_tasks`. -/
def isYes (s : String) : Bool := trimWs (lowercase s) == ['y']

/-- Operation `TaskStore::reset_tasks`: on an empty collection returns at once (no
write).  Otherwise, with `force` the collection is truncated and written;
without `force` the user is prompted: a stdin read error returns without a
write, an answer whose lowercased, trimmed text is `"y"` truncates, and any
other answer leaves the collection as loaded — in both of the last two cases
the collection (emptied or unchanged) is written back. -/
def reset_tasks (l : List TaskItem) (force : Bool) (input : Option String) :
    Option (List TaskItem) :=
  if l.isEmpty then none
  else if force then some []
  else
    match input with
    | none => none
    | some s => if isYes s then some [] else some l

/-- The transposition of two ids, as performed on each id by a successful
`swap_tasks` (specification-side helper used to characterise `swap_tasks`). -/
def swapId (a b x : Nat) : Nat := if x = a then b else if x = b then a else x

/-! ### Basic lemmas about `ids` and `maxId` -/

theorem ids_cons (t : TaskItem) (ts : List TaskItem) :
    ids (t :: ts) = t.id :: ids ts := rfl

theorem maxId_cons (t : TaskItem) (ts : List TaskItem) :
    maxId (t :: ts) = max t.id (maxId ts) := rfl

theorem le_maxId {l : List TaskItem} {t : TaskItem} (h : t ∈ l) :
    t.id ≤ maxId l := by
  induction l with
  | nil => cases h
  | cons u us ih =>
    rw [maxId_cons]
    rcases List.mem_cons.mp h with h | h
    · subst h; exact Nat.le_max_left _ _
    · exact Nat.le_trans (ih h) (Nat.le_max_right _ _)

theorem maxId_le {l : List TaskItem} {B : Nat} (h : ∀ t ∈ l, t.id ≤ B) :
    maxId l ≤ B := by
  induction l with
  | nil => exact Nat.zero_le _
  | cons u us ih =>
    rw [maxId_cons]
    exact Nat.max_le.mpr ⟨h u (List.mem_cons_self _ _), ih fun t ht => h t (List.mem_cons_of_mem _ ht)⟩

theorem maxId_mem {l : List TaskItem} (h : l ≠ []) :
    ∃ t ∈ l, t.id = maxId l := by
  induction l with
  | nil => exact absurd rfl h
  | cons u us ih =>
    rcases eq_or_ne us [] with hus | hus
    · subst hus
      exact ⟨u, List.mem_cons_self _ _, by simp [maxId, ids]⟩
    · obtain ⟨t, ht, hid⟩ := ih hus
      rw [maxId_cons]
      rcases Nat.le_total u.id (maxId us) with hle | hle
      · exact ⟨t, List.mem_cons_of_mem _ ht, by rw [hid, Nat.max_eq_right hle]⟩
      · exact ⟨u, List.mem_cons_self _ _, (Nat.max_eq_left hle).symm⟩

/-! ### Lemmas about `update_task`, `mark_task`, `delete_task` -/

theorem update_task_eq_none {i : Nat} {s : String} {l : List TaskItem}
    (h : i ∉ ids l) : update_task l i s = none := by
  induction l with
  | nil => rfl
  | cons t ts ih =>
    rw [ids_cons, List.mem_cons] at h
    push_neg at h
    rw [update_task, if_neg fun e => h.1 e.symm, ih h.2]
    rfl

theorem mark_task_eq_none {i : Nat} {d : Bool} {l : List TaskItem}
    (h : i ∉ ids l) : mark_task l i d = none := by
  induction l with
  | nil => rfl
  | cons t ts ih =>
    rw [ids_cons, List.mem_cons] at h
    push_neg at h
    rw [mark_task, if_neg fun e => h.1 e.symm, ih h.2]
    rfl

theorem delete_task_eq_none {i : Nat} {l : List TaskItem}
    (h : i ∉ ids l) : delete_task l i = none := by
  induction l with
  | nil => rfl
  | cons t ts ih =>
    rw [ids_cons, List.mem_cons] at h
    push_neg at h
    rw [delete_task, if_neg fun e => h.1 e.symm, ih h.2]
    rfl

theorem update_task_ids {i : Nat} {s : String} {l l' : List TaskItem}
    (h : update_task l i s = some l') : ids l' = ids l := by
  induction l generalizing l' with
  | nil => exact absurd h (by simp [update_task])
  | cons t ts ih =>
    rw [update_task] at h
    by_cases ht : t.id = i
    · rw [if_pos ht] at h
      cases h
      rfl
    · rw [if_neg ht] at h
      cases hu : update_task ts i s with
      | none => rw [hu] at h; cases h
      | some u =>
        rw [hu] at h
        cases h
        rw [ids_cons, ids_cons, ih hu]

theorem mark_task_ids {i : Nat} {d : Bool} {l l' : List TaskItem}
    (h : mark_task l i d = some l') : ids l' = ids l := by
  induction l generalizing l' with
  | nil => exact absurd h (by simp [mark_task])
  | cons t ts ih =>
    rw [mark_task] at h
    by_cases ht : t.id = i
    · rw [if_pos ht] at h
      cases h
      rfl
    · rw [if_neg ht] at h
      cases hu : mark_task ts i d with
      | none => rw [hu] at h; cases h
      | some u =>
        rw [hu] at h
        cases h
        rw [ids_cons, ids_cons, ih hu]

theorem delete_task_sublist {i : Nat} {l l' : List TaskItem}
    (h : delete_task l i = some l') : List.Sublist (ids l') (ids l) := by
  induction l generalizing l' with
  | nil => exact absurd h (by simp [delete_task])
  | cons t ts ih =>
    rw [delete_task] at h
    by_cases ht : t.id = i
    · rw [if_pos ht] at h
      cases h
      exact List.sublist_cons_self _ _
    · rw [if_neg ht] at h
      cases hu : delete_task ts i with
      | none => rw [hu] at h; cases h
      | some u =>
        rw [hu] at h
        cases h
        exact List.Sublist.cons₂ _ (ih hu)

theorem delete_task_mem {i : Nat} {l l' : List TaskItem} {t : TaskItem}
    (h : delete_task l i = some l') (ht : t ∈ l) (hne : t.id ≠ i) : t ∈ l' := by
  induction l generalizing l' with
  | nil => cases ht
  | cons u us ih =>
    rw [delete_task] at h
    by_cases hu : u.id = i
    · rw [if_pos hu] at h
      cases h
      rcases List.mem_cons.mp ht with e | e
      · exact absurd (e ▸ hu) hne
      · exact e
    · rw [if_neg hu] at h
      cases hd : delete_task us i with
      | none => rw [hd] at h; cases h
      | some v =>
        rw [hd] at h
        cases h
        rcases List.mem_cons.mp ht with e | e
        · exact e ▸ List.mem_cons_self _ _
        · exact List.mem_cons_of_mem _ (ih hd e)

/-! ### Lemmas about `position` and `setId` -/

theorem position_bound {p : TaskItem → Bool} {l : List TaskItem} {i : Nat}
    (h : position p l = some i) : i < l.length := by
  induction l generalizing i with
  | nil => cases h
  | cons t ts ih =>
    rw [position] at h
    by_cases hp : p t
    · rw [if_pos hp] at h
      cases h
      exact Nat.succ_pos _
    · rw [if_neg hp] at h
      cases hpos : position p ts with
      | none => rw [hpos] at h; cases h
      | some j =>
        rw [hpos] at h
        cases h
        exact Nat.succ_lt_succ (ih hpos)

theorem position_get {p : TaskItem → Bool} {l : List TaskItem} {i : Nat}
    (h : position p l = some i) : ∃ t, l[i]? = some t ∧ p t = true := by
  induction l generalizing i with
  | nil => cases h
  | cons t ts ih =>
    rw [position] at h
    by_cases hp : p t
    · rw [if_pos hp] at h
      cases h
      exact ⟨t, by simp, hp⟩
    · rw [if_neg hp] at h
      cases hpos : position p ts with
      | none => rw [hpos] at h; cases h
      | some j =>
        rw [hpos] at h
        cases h
        obtain ⟨u, hu, hpu⟩ := ih hpos
        exact ⟨u, by simpa using hu, hpu⟩

theorem position_of_mem {i : Nat} {l : List TaskItem} (h : i ∈ ids l) :
    ∃ j, position (fun t => t.id == i) l = some j := by
  induction l with
  | nil => cases h
  | cons t ts ih =>
    rw [ids_cons, List.mem_cons] at h
    by_cases ht : t.id = i
    · exact ⟨0, by rw [position, if_pos (by simpa using ht)]⟩
    · have hmem : i ∈ ids ts := h.resolve_left fun e => ht e.symm
      obtain ⟨j, hj⟩ := ih hmem
      exact ⟨j + 1, by rw [position, if_neg (by simpa using ht), hj]; rfl⟩

theorem setId_length (l : List TaskItem) (i v : Nat) :
    (setId l i v).length = l.length := by
  induction l generalizing i with
  | nil => rfl
  | cons t ts ih =>
    cases i with
    | zero => rfl
    | succ n => simpa [setId] using ih n

theorem setId_map_task (l : List TaskItem) (i v : Nat) :
    (setId l i v).map TaskItem.task = l.map TaskItem.task := by
  induction l generalizing i with
  | nil => rfl
  | cons t ts ih =>
    cases i with
    | zero => rfl
    | succ n => simpa [setId] using ih n

theorem setId_map_done (l : List TaskItem) (i v : Nat) :
    (setId l i v).map TaskItem.done = l.map TaskItem.done := by
  induction l generalizing i with
  | nil => rfl
  | cons t ts ih =>
    cases i with
    | zero => rfl
    | succ n => simpa [setId] using ih n

theorem setId_get_ne (l : List TaskItem) (i v : Nat) {j : Nat} (h : j ≠ i) :
    (setId l i v)[j]? = l[j]? := by
  induction l generalizing i j with
  | nil => rfl
  | cons t ts ih =>
    cases i with
    | zero =>
      cases j with
      | zero => exact absurd rfl h
      | succ m => simp [setId]
    | succ n =>
      cases j with
      | zero => simp [setId]
      | succ m => simpa [setId] using ih n fun e => h (by rw [e])

theorem setId_get_self (l : List TaskItem) (i v : Nat) :
    (setId l i v)[i]? = l[i]?.map fun t => { t with id := v } := by
  induction l generalizing i with
  | nil => rfl
  | cons t ts ih =>
    cases i with
    | zero => simp [setId]
    | succ n => simpa [setId] using ih n

theorem setId_eq_self {l : List TaskItem} {i v : Nat} {t : TaskItem}
    (h : l[i]? = some t) (hv : t.id = v) : setId l i v = l := by
  induction l generalizing i with
  | nil => cases h
  | cons u us ih =>
    cases i with
    | zero =>
      simp only [List.getElem?_cons_zero, Option.some.injEq] at h
      show { u with id := v } :: us = u :: us
      rw [← hv, h]
    | succ n =>
      show u :: setId us n v = u :: us
      rw [ih (by simpa using h)]

theorem setId_setId_same (l : List TaskItem) (i v w : Nat) :
    setId (setId l i v) i w = setId l i w := by
  induction l generalizing i with
  | nil => rfl
  | cons t ts ih =>
    cases i with
    | zero => rfl
    | succ n => simpa [setId] using ih n

/-! ### Lemmas about `swapId` and the characterisation of `swap_tasks` -/

theorem swapId_left (a b : Nat) : swapId a b a = b := by simp [swapId]

theorem swapId_right (a b : Nat) : swapId a b b = a := by
  rcases eq_or_ne b a with h | h <;> simp [swapId, h]

theorem swapId_other {a b x : Nat} (hxa : x ≠ a) (hxb : x ≠ b) :
    swapId a b x = x := by simp [swapId, hxa, hxb]

theorem swapId_involutive (a b x : Nat) : swapId a b (swapId a b x) = x := by
  rcases eq_or_ne x a with h | h
  · subst h; rw [swapId_left, swapId_right]
  · rcases eq_or_ne x b with h2 | h2
    · subst h2; rw [swapId_right, swapId_left]
    · rw [swapId_other h h2, swapId_other h h2]

theorem swapId_comm (a b x : Nat) : swapId a b x = swapId b a x := by
  unfold swapId
  split_ifs <;> omega

theorem swapId_injective (a b : Nat) : Function.Injective (swapId a b) :=
  Function.Involutive.injective (swapId_involutive a b)

theorem map_swapId_eq_self {a b : Nat} {ts : List TaskItem}
    (ha : a ∉ ids ts) (hb : b ∉ ids ts) :
    ts.map (fun u => { u with id := swapId a b u.id }) = ts := by
  induction ts with
  | nil => rfl
  | cons u us ih =>
    rw [ids_cons, List.mem_cons] at ha hb
    push_neg at ha hb
    rw [List.map_cons, swapId_other (fun e => ha.1 e.symm) (fun e => hb.1 e.symm),
      ih ha.2 hb.2]

theorem setId_position_map {a b : Nat} {ts : List TaskItem} {j : Nat}
    (hj : position (fun t => t.id == b) ts = some j)
    (hnd : (ids ts).Nodup) (ha : a ∉ ids ts) :
    setId ts j a = ts.map fun u => { u with id := swapId a b u.id } := by
  induction ts generalizing j with
  | nil => cases hj
  | cons u us ih =>
    rw [ids_cons, List.mem_cons] at ha
    push_neg at ha
    rw [ids_cons, List.nodup_cons] at hnd
    rw [position] at hj
    by_cases hub : u.id = b
    · rw [if_pos (by simpa using hub)] at hj
      cases hj
      have hab : b ≠ a := fun e => ha.1 (e ▸ hub.symm)
      rw [setId, List.map_cons, hub, swapId_right,
        map_swapId_eq_self ha.2 (hub ▸ hnd.1)]
    · rw [if_neg (by simpa using hub)] at hj
      cases hpos : position (fun t => t.id == b) us with
      | none => rw [hpos] at hj; cases hj
      | some j' =>
        rw [hpos] at hj
        cases hj
        rw [setId, List.map_cons,
          swapId_other (fun e => ha.1 e.symm) hub, ih hpos hnd.2 ha.2]

theorem swap_core {a b : Nat} (hab : a ≠ b) {l : List TaskItem} {i j : Nat}
    (hi : position (fun t => t.id == a) l = some i)
    (hj : position (fun t => t.id == b) l = some j)
    (hnd : (ids l).Nodup) :
    setId (setId l i b) j a = l.map fun t => { t with id := swapId a b t.id } := by
  induction l generalizing i j with
  | nil => cases hi
  | cons t ts ih =>
    rw [ids_cons, List.nodup_cons] at hnd
    rw [position] at hi hj
    by_cases hta : t.id = a
    · rw [if_pos (by simpa using hta)] at hi
      cases hi
      rw [if_neg (by simpa using hta ▸ hab)] at hj
      cases hpos : position (fun u => u.id == b) ts with
      | none => rw [hpos] at hj; cases hj
      | some j' =>
        rw [hpos] at hj
        cases hj
        show ({ t with id := b } : TaskItem) :: setId ts j' a =
          List.map (fun u => { u with id := swapId a b u.id }) (t :: ts)
        rw [List.map_cons, hta, swapId_left,
          setId_position_map hpos hnd.2 (hta ▸ hnd.1)]
    · rw [if_neg (by simpa using hta)] at hi
      by_cases htb : t.id = b
      · rw [if_pos (by simpa using htb)] at hj
        cases hj
        cases hpos : position (fun u => u.id == a) ts with
        | none => rw [hpos] at hi; cases hi
        | some i' =>
          rw [hpos] at hi
          cases hi
          show ({ t with id := a } : TaskItem) :: setId ts i' b =
            List.map (fun u => { u with id := swapId a b u.id }) (t :: ts)
          rw [List.map_cons, htb, swapId_right,
            setId_position_map hpos hnd.2 (htb ▸ hnd.1)]
          refine congrArg (_ :: ·) ?_
          refine List.map_congr_left fun u _ => ?_
          rw [swapId_comm b a]
      · rw [if_neg (by simpa using htb)] at hj
        cases hposa : position (fun u => u.id == a) ts with
        | none => rw [hposa] at hi; cases hi
        | some i' =>
          rw [hposa] at hi
          cases hi
          cases hposb : position (fun u => u.id == b) ts with
          | none => rw [hposb] at hj; cases hj
          | some j' =>
            rw [hposb] at hj
            cases hj
            show t :: setId (setId ts i' b) j' a =
              List.map (fun u => { u with id := swapId a b u.id }) (t :: ts)
            rw [List.map_cons, swapId_other hta htb, ih hposa hposb hnd.2]

theorem swap_eq_map {l : List TaskItem} {a b : Nat}
    (ha : a ∈ ids l) (hb : b ∈ ids l) (hnd : (ids l).Nodup) :
    swap_tasks l a b = some (l.map fun t => { t with id := swapId a b t.id }) := by
  obtain ⟨i, hi⟩ := position_of_mem ha
  obtain ⟨j, hj⟩ := position_of_mem hb
  rcases eq_or_ne a b with hab | hab
  · subst hab
    rw [hi] at hj
    cases hj
    obtain ⟨t, hget, hpt⟩ := position_get hi
    have hone : ∀ u : TaskItem, ({ u with id := swapId a a u.id } : TaskItem) = u := by
      intro u
      rcases eq_or_ne u.id a with h | h
      · rw [h, swapId_left, ← h]
      · rw [swapId_other h h]
    simp only [swap_tasks, hi]
    rw [setId_setId_same, setId_eq_self hget (by simpa using hpt)]
    simp only [hone, List.map_id']
  · simp only [swap_tasks, hi, hj]
    rw [swap_core hab hi hj hnd]

theorem swap_tasks_ids {l r : List TaskItem} {a b : Nat}
    (h : swap_tasks l a b = some r) :
    ∃ i j, position (fun t => t.id == a) l = some i ∧
      position (fun t => t.id == b) l = some j ∧
      r = setId (setId l i b) j a := by
  rw [swap_tasks] at h
  cases hi : position (fun t => t.id == a) l with
  | none => rw [hi] at h; cases h
  | some i =>
    rw [hi] at h
    cases hj : position (fun t => t.id == b) l with
    | none => rw [hj] at h; cases h
    | some j =>
      rw [hj] at h
      cases h
      exact ⟨i, j, rfl, rfl, rfl⟩

/-! ### Derived facts used by several claims -/

theorem mem_ids_of_position {l : List TaskItem} {a : Nat} {i : Nat}
    (h : position (fun t => t.id == a) l = some i) : a ∈ ids l := by
  obtain ⟨t, hget, hpt⟩ := position_get h
  exact List.mem_map.mpr ⟨t, List.getElem?_mem hget, by simpa using hpt⟩

theorem swap_tasks_eq_of_some {l r : List TaskItem} {a b : Nat}
    (h : swap_tasks l a b = some r) (hnd : (ids l).Nodup) :
    r = l.map fun t => { t with id := swapId a b t.id } := by
  obtain ⟨i, j, hi, hj, _⟩ := swap_tasks_ids h
  have h2 := swap_eq_map (mem_ids_of_position hi) (mem_ids_of_position hj) hnd
  rw [h] at h2
  exact Option.some.inj h2

theorem ids_map_swap (l : List TaskItem) (a b : Nat) :
    ids (l.map fun t => { t with id := swapId a b t.id }) =
      (ids l).map (swapId a b) := by
  unfold ids
  rw [List.map_map, List.map_map]
  rfl

theorem add_task_ids (l : List TaskItem) (s : String) :
    ids (add_task l s) = ids l ++ [(maxId l + 1) % u32Mod] := by
  unfold add_task ids TaskItem.new
  rw [List.map_append]
  rfl

theorem reset_tasks_cases {l w : List TaskItem} {f : Bool} {inp : Option String}
    (h : reset_tasks l f inp = some w) : w = [] ∨ w = l := by
  unfold reset_tasks at h
  by_cases he : l.isEmpty
  · rw [if_pos he] at h
    cases h
  · rw [if_neg he] at h
    cases f with
    | true =>
      have h' : some ([] : List TaskItem) = some w := h
      exact Or.inl (Option.some.inj h').symm
    | false =>
      cases inp with
      | none =>
        have h' : (none : Option (List TaskItem)) = some w := h
        cases h'
      | some s =>
        have h' : (if isYes s then some [] else some l) = some w := h
        by_cases hy : isYes s
        · rw [if_pos hy] at h'
          exact Or.inl (Option.some.inj h').symm
        · rw [if_neg hy] at h'
          exact Or.inr (Option.some.inj h').symm

/-! ### The claims -/

/-- Claim C1 (amended): provided the maximum id of the loaded collection is
strictly below `2^32 - 1`, `add_task` appends exactly one new task whose id is
`maxId l + 1` (hence `1` on the empty collection), whose description is the
supplied text and whose done flag is `false`; the previously present tasks are
unchanged and the new id is strictly above every id present, so no id at or
below the current maximum is reused. -/
theorem c1_add_appends_next_id (l : List TaskItem) (s : String)
    (h : maxId l < u32Mod - 1) :
    add_task l s = l ++ [{ id := maxId l + 1, task := s, done := false }] ∧
    ∀ t ∈ l, t.id < maxId l + 1 := by
  have hlt : maxId l + 1 < u32Mod := by unfold u32Mod at *; omega
  constructor
  · unfold add_task TaskItem.new
    rw [Nat.mod_eq_of_lt hlt]
  · intro t ht
    exact Nat.lt_succ_of_le (le_maxId ht)

/-- Witness for `c1_add_appends_next_id` at a concrete one-task collection. -/
theorem c1_add_appends_next_id_witness :
    add_task [TaskItem.new 1 "a"] "b" =
      [TaskItem.new 1 "a"] ++
        [{ id := maxId [TaskItem.new 1 "a"] + 1, task := "b", done := false }] ∧
    ∀ t ∈ [TaskItem.new 1 "a"], t.id < maxId [TaskItem.new 1 "a"] + 1 :=
  c1_add_appends_next_id [TaskItem.new 1 "a"] "b" (by decide)

/-- Claim C1 counterexample: on a collection holding a task with id
`2^32 - 1`, `add_task` assigns id `0` to the new task, not the maximum id
plus one. -/
theorem c1_overflow_counterexample :
    ids (add_task [TaskItem.new 4294967295 "a"] "b") = [4294967295, 0] ∧
    (0 : Nat) ≠ 4294967295 + 1 :=
  ⟨by decide, by decide⟩

/-- Claim C2 (amended): for a collection with pairwise distinct ids, every
store operation that writes preserves distinctness — `add_task` under the
precondition that the maximum id is strictly below `2^32 - 1`, and
`update_task`, `mark_task`, `delete_task`, `swap_tasks` and `reset_tasks`
unconditionally. -/
theorem c2_ops_preserve_unique_ids (l : List TaskItem)
    (hnd : (ids l).Nodup) :
    (∀ s, maxId l < u32Mod - 1 → (ids (add_task l s)).Nodup) ∧
    (∀ i s l', update_task l i s = some l' → (ids l').Nodup) ∧
    (∀ i d l', mark_task l i d = some l' → (ids l').Nodup) ∧
    (∀ i l', delete_task l i = some l' → (ids l').Nodup) ∧
    (∀ a b r, swap_tasks l a b = some r → (ids r).Nodup) ∧
    (∀ f inp w, reset_tasks l f inp = some w → (ids w).Nodup) := by
  refine ⟨?_, ?_, ?_, ?_, ?_, ?_⟩
  · intro s h
    rw [add_task_ids, Nat.mod_eq_of_lt (by unfold u32Mod at *; omega)]
    refine List.nodup_append.mpr ⟨hnd, List.nodup_singleton _, ?_⟩
    intro x hx hx1
    rw [List.mem_singleton] at hx1
    obtain ⟨t, ht, rfl⟩ := List.mem_map.mp hx
    have := le_maxId ht
    omega
  · intro i s l' h
    rw [update_task_ids h]
    exact hnd
  · intro i d l' h
    rw [mark_task_ids h]
    exact hnd
  · intro i l' h
    exact List.Nodup.sublist (delete_task_sublist h) hnd
  · intro a b r h
    rw [swap_tasks_eq_of_some h hnd, ids_map_swap]
    exact hnd.map (swapId_injective a b)
  · intro f inp w h
    rcases reset_tasks_cases h with rfl | rfl
    · exact List.nodup_nil
    · exact hnd

/-- Witness for `c2_ops_preserve_unique_ids` at a concrete collection. -/
theorem c2_ops_preserve_unique_ids_witness :
    (∀ s, maxId [TaskItem.new 1 "a"] < u32Mod - 1 →
      (ids (add_task [TaskItem.new 1 "a"] s)).Nodup) ∧
    (∀ i s l', update_task [TaskItem.new 1 "a"] i s = some l' →
      (ids l').Nodup) ∧
    (∀ i d l', mark_task [TaskItem.new 1 "a"] i d = some l' →
      (ids l').Nodup) ∧
    (∀ i l', delete_task [TaskItem.new 1 "a"] i = some l' →
      (ids l').Nodup) ∧
    (∀ a b r, swap_tasks [TaskItem.new 1 "a"] a b = some r →
      (ids r).Nodup) ∧
    (∀ f inp w, reset_tasks [TaskItem.new 1 "a"] f inp = some w →
      (ids w).Nodup) :=
  c2_ops_preserve_unique_ids [TaskItem.new 1 "a"] (by decide)

/-- Claim C2 counterexample: the collection with ids `0` and `2^32 - 1` has
pairwise distinct ids, yet after `add_task` the ids are `[0, 2^32 - 1, 0]`
because the fresh id wraps to `0`. -/
theorem c2_uniqueness_counterexample :
    (ids [TaskItem.new 0 "a", TaskItem.new 4294967295 "b"]).Nodup ∧
    ¬ (ids (add_task [TaskItem.new 0 "a", TaskItem.new 4294967295 "b"] "c")).Nodup :=
  ⟨by decide, by decide⟩

/-- Claim C3: `update_task`, `mark_task` and `delete_task` addressed with an
id absent from the collection return `none` — the early "Task not found"
return of the code, which performs no mutation and never reaches
`write_tasks`, so the persisted collection is exactly the loaded one. -/
theorem c3_absent_id_no_write (l : List TaskItem) (i : Nat) (s : String)
    (d : Bool) (h : i ∉ ids l) :
    update_task l i s = none ∧ mark_task l i d = none ∧
      delete_task l i = none :=
  ⟨update_task_eq_none h, mark_task_eq_none h, delete_task_eq_none h⟩

/-- Witness for `c3_absent_id_no_write` at a concrete absent id. -/
theorem c3_absent_id_no_write_witness :
    update_task [TaskItem.new 1 "a"] 5 "b" = none ∧
    mark_task [TaskItem.new 1 "a"] 5 true = none ∧
    delete_task [TaskItem.new 1 "a"] 5 = none :=
  c3_absent_id_no_write [TaskItem.new 1 "a"] 5 "b" true (by decide)

/-- Claim C4: on a collection with the at-rest invariant (pairwise distinct
ids) that contains both `a` and `b`, applying `swap_tasks a b` twice restores
the original collection exactly — same ids, descriptions, done flags and
sequence positions. -/
theorem c4_swap_involution (l : List TaskItem) (a b : Nat)
    (ha : a ∈ ids l) (hb : b ∈ ids l) (hnd : (ids l).Nodup) :
    ∃ r, swap_tasks l a b = some r ∧ swap_tasks r a b = some l := by
  refine ⟨_, swap_eq_map ha hb hnd, ?_⟩
  have hids : ids (l.map fun t => { t with id := swapId a b t.id }) =
      (ids l).map (swapId a b) := ids_map_swap l a b
  have ha' : a ∈ ids (l.map fun t => { t with id := swapId a b t.id }) := by
    rw [hids]
    exact List.mem_map.mpr ⟨b, hb, swapId_right a b⟩
  have hb' : b ∈ ids (l.map fun t => { t with id := swapId a b t.id }) := by
    rw [hids]
    exact List.mem_map.mpr ⟨a, ha, swapId_left a b⟩
  have hnd' : (ids (l.map fun t => { t with id := swapId a b t.id })).Nodup := by
    rw [hids]
    exact hnd.map (swapId_injective a b)
  rw [swap_eq_map ha' hb' hnd']
  refine congrArg some ?_
  rw [List.map_map]
  have hcomp : ∀ t ∈ l,
      ((fun u : TaskItem => { u with id := swapId a b u.id }) ∘
        fun u : TaskItem => { u with id := swapId a b u.id }) t =
      (fun u : TaskItem => u) t := by
    intro t _
    show ({ t with id := swapId a b (swapId a b t.id) } : TaskItem) = t
    rw [swapId_involutive]
  rw [List.map_congr_left hcomp, List.map_id']

/-- Witness for `c4_swap_involution` at a concrete two-task collection. -/
theorem c4_swap_involution_witness :
    ∃ r, swap_tasks [TaskItem.new 1 "a", TaskItem.new 2 "b"] 1 2 = some r ∧
      swap_tasks r 1 2 = some [TaskItem.new 1 "a", TaskItem.new 2 "b"] :=
  c4_swap_involution [TaskItem.new 1 "a", TaskItem.new 2 "b"] 1 2
    (by decide) (by decide) (by decide)

/-- Claim C5: when both ids are present, `swap_tasks` writes a collection of
the same length in the same sequence order, with every description and done
flag attached to its original position, every position other than the two
found positions untouched, and the id fields at the two found positions
exchanged. -/
theorem c5_swap_frame (l : List TaskItem) (a b : Nat)
    (ha : a ∈ ids l) (hb : b ∈ ids l) :
    ∃ i j r,
      position (fun t => t.id == a) l = some i ∧
      position (fun t => t.id == b) l = some j ∧
      swap_tasks l a b = some r ∧
      r.map TaskItem.task = l.map TaskItem.task ∧
      r.map TaskItem.done = l.map TaskItem.done ∧
      (∀ k, k ≠ i → k ≠ j → r[k]? = l[k]?) ∧
      r[i]?.map TaskItem.id = some b ∧
      r[j]?.map TaskItem.id = some a := by
  obtain ⟨i, hi⟩ := position_of_mem ha
  obtain ⟨j, hj⟩ := position_of_mem hb
  obtain ⟨t, hget, hpt⟩ := position_get hi
  refine ⟨i, j, setId (setId l i b) j a, hi, hj, ?_, ?_, ?_, ?_, ?_, ?_⟩
  · simp only [swap_tasks, hi, hj]
  · rw [setId_map_task, setId_map_task]
  · rw [setId_map_done, setId_map_done]
  · intro k hki hkj
    rw [setId_get_ne _ _ _ hkj, setId_get_ne _ _ _ hki]
  · rcases eq_or_ne i j with rfl | hij
    · obtain ⟨t', hget', hpt'⟩ := position_get hj
      rw [hget] at hget'
      have hab : a = b := by
        have h1 : t.id = a := by simpa using hpt
        have h2 : t'.id = b := by simpa using hpt'
        rw [← h1, ← h2, Option.some.inj hget']
      rw [setId_setId_same, setId_get_self, hget]
      simp [hab]
    · rw [setId_get_ne _ _ _ hij, setId_get_self, hget]
      simp
  · rw [setId_get_self]
    rcases eq_or_ne j i with rfl | hji
    · rw [setId_get_self, hget]
      simp
    · obtain ⟨u, hgetj, _⟩ := position_get hj
      rw [setId_get_ne _ _ _ hji, hgetj]
      simp

/-- Witness for `c5_swap_frame` at a concrete three-task collection. -/
theorem c5_swap_frame_witness :
    ∃ i j r,
      position (fun t => t.id == 1)
        [TaskItem.new 1 "a", TaskItem.new 2 "b", TaskItem.new 3 "c"] = some i ∧
      position (fun t => t.id == 3)
        [TaskItem.new 1 "a", TaskItem.new 2 "b", TaskItem.new 3 "c"] = some j ∧
      swap_tasks [TaskItem.new 1 "a", TaskItem.new 2 "b", TaskItem.new 3 "c"]
        1 3 = some r ∧
      r.map TaskItem.task =
        [TaskItem.new 1 "a", TaskItem.new 2 "b", TaskItem.new 3 "c"].map
          TaskItem.task ∧
      r.map TaskItem.done =
        [TaskItem.new 1 "a", TaskItem.new 2 "b", TaskItem.new 3 "c"].map
          TaskItem.done ∧
      (∀ k, k ≠ i → k ≠ j →
        r[k]? =
          [TaskItem.new 1 "a", TaskItem.new 2 "b", TaskItem.new 3 "c"][k]?) ∧
      r[i]?.map TaskItem.id = some 3 ∧
      r[j]?.map TaskItem.id = some 1 :=
  c5_swap_frame [TaskItem.new 1 "a", TaskItem.new 2 "b", TaskItem.new 3 "c"]
    1 3 (by decide) (by decide)

/-- Claim C6: on a stored collection (pairwise distinct ids, any storage
order), `list_tasks` with `all = false` outputs no done task, with
`all = true` outputs every task (a permutation of the collection), in both
cases the output is strictly sorted ascending by id, and `list_tasks` never
writes to storage. -/
theorem c6_list_behaviour (l : List TaskItem) (hnd : (ids l).Nodup) :
    (∀ t ∈ (list_tasks l false).1, t.done = false) ∧
    List.Perm (list_tasks l true).1 l ∧
    (∀ all, ((list_tasks l all).1.map TaskItem.id).Pairwise (· < ·)) ∧
    (∀ all, (list_tasks l all).2 = none) := by
  refine ⟨?_, ?_, ?_, fun _ => rfl⟩
  · intro t ht
    simp only [list_tasks] at ht
    have hmem := List.mem_mergeSort.mp ht
    have hp := List.of_mem_filter hmem
    simpa using hp
  · simp only [list_tasks]
    have hfilter : l.filter (fun t => !t.done || true) = l :=
      List.filter_eq_self.mpr fun t _ => by simp
    rw [hfilter]
    exact List.mergeSort_perm l _
  · intro all
    simp only [list_tasks]
    rw [List.pairwise_map]
    have hperm :=
      List.mergeSort_perm (l.filter fun t => !t.done || all)
        (fun a b => decide (a.id ≤ b.id))
    have hle :
        ((l.filter fun t => !t.done || all).mergeSort
            (fun a b => decide (a.id ≤ b.id))).Pairwise
          (fun a b : TaskItem => a.id ≤ b.id) := by
      have hs :=
        @List.sorted_mergeSort TaskItem
          (fun a b : TaskItem => decide (a.id ≤ b.id))
          (fun a b c h1 h2 => by
            simp only [decide_eq_true_eq] at *
            omega)
          (fun a b => by
            simp only [Bool.or_eq_true, decide_eq_true_eq]
            omega)
          (l.filter fun t => !t.done || all)
      exact hs.imp fun h => by simpa using h
    have hne :
        ((l.filter fun t => !t.done || all).mergeSort
            (fun a b => decide (a.id ≤ b.id))).Pairwise
          (fun a b : TaskItem => a.id ≠ b.id) := by
      have hsub : List.Sublist (ids (l.filter fun t => !t.done || all)) (ids l) :=
        List.Sublist.map TaskItem.id (List.filter_sublist l)
      have hnd1 : (ids (l.filter fun t => !t.done || all)).Nodup :=
        List.Nodup.sublist hsub hnd
      have hnd2 :
          (ids ((l.filter fun t => !t.done || all).mergeSort
              (fun a b => decide (a.id ≤ b.id)))).Nodup :=
        (List.Perm.nodup_iff (List.Perm.map TaskItem.id hperm)).mpr hnd1
    -- `Nodup` on the mapped ids is exactly pairwise-distinct ids
      unfold ids at hnd2
      rw [List.Nodup, List.pairwise_map] at hnd2
      exact hnd2
    exact (hle.and hne).imp fun h => Nat.lt_of_le_of_ne h.1 h.2

/-- Witness for `c6_list_behaviour` at a concrete collection. -/
theorem c6_list_behaviour_witness :
    (∀ t ∈ (list_tasks [TaskItem.new 2 "b",
        { id := 1, task := "a", done := true }] false).1, t.done = false) ∧
    List.Perm (list_tasks [TaskItem.new 2 "b",
        { id := 1, task := "a", done := true }] true).1
      [TaskItem.new 2 "b", { id := 1, task := "a", done := true }] ∧
    (∀ all, ((list_tasks [TaskItem.new 2 "b",
        { id := 1, task := "a", done := true }] all).1.map
          TaskItem.id).Pairwise (· < ·)) ∧
    (∀ all, (list_tasks [TaskItem.new 2 "b",
        { id := 1, task := "a", done := true }] all).2 = none) :=
  c6_list_behaviour [TaskItem.new 2 "b", { id := 1, task := "a", done := true }]
    (by decide)

/-- Claim C7 counterexample: on a one-task collection with `force = false`,
the answer `"n"` does not abort without a write — the unchanged collection is
written back — and the non-exact answer `" Y "` (whitespace around the
letter) also triggers the clear because the code trims the input. -/
theorem c7_decline_still_writes_counterexample :
    reset_tasks [TaskItem.new 1 "a"] false (some "n\n") =
      some [TaskItem.new 1 "a"] ∧
    reset_tasks [TaskItem.new 1 "a"] false (some " Y \n") = some [] :=
  ⟨by decide, by decide⟩

/-- Claim C7 (amended): in `reset_tasks` with `force = false` on a non-empty
collection, exactly the answers whose lowercased, whitespace-trimmed text is
`"y"` trigger clearing; unreadable input aborts without a write; any other
readable answer does not clear, but writes the unchanged collection back. -/
theorem c7_reset_confirmation (l : List TaskItem) (h : l ≠ []) (s : String) :
    (isYes s = true → reset_tasks l false (some s) = some []) ∧
    (isYes s = false → reset_tasks l false (some s) = some l) ∧
    reset_tasks l false none = none := by
  have he : l.isEmpty = false := by
    cases l with
    | nil => exact absurd rfl h
    | cons t ts => rfl
  refine ⟨fun hy => ?_, fun hy => ?_, ?_⟩
  · simp [reset_tasks, he, hy]
  · simp [reset_tasks, he, hy]
  · simp [reset_tasks, he]

/-- Witness for `c7_reset_confirmation` at a concrete collection and answer. -/
theorem c7_reset_confirmation_witness :
    (isYes "y\n" = true →
      reset_tasks [TaskItem.new 1 "a"] false (some "y\n") = some []) ∧
    (isYes "y\n" = false →
      reset_tasks [TaskItem.new 1 "a"] false (some "y\n") =
        some [TaskItem.new 1 "a"]) ∧
    reset_tasks [TaskItem.new 1 "a"] false none = none :=
  c7_reset_confirmation [TaskItem.new 1 "a"] (by decide) "y\n"

/-- Claim C8: `reset_tasks` with `force = true` on a non-empty collection
always writes the empty collection; with `force = false` and the answer
`"n"` the written collection's content is unchanged; and on an already-empty
collection `reset_tasks` returns at once and performs no write at all. -/
theorem c8_reset_behaviour (l : List TaskItem) (h : l ≠ []) :
    (∀ inp, reset_tasks l true inp = some []) ∧
    reset_tasks l false (some "n\n") = some l ∧
    (∀ f inp, reset_tasks [] f inp = none) := by
  have he : l.isEmpty = false := by
    cases l with
    | nil => exact absurd rfl h
    | cons t ts => rfl
  have hy : isYes "n\n" = false := by decide
  refine ⟨fun inp => ?_, ?_, fun f inp => rfl⟩
  · simp [reset_tasks, he]
  · simp [reset_tasks, he, hy]

/-- Witness for `c8_reset_behaviour` at a concrete one-task collection. -/
theorem c8_reset_behaviour_witness :
    (∀ inp, reset_tasks [TaskItem.new 1 "a"] true inp = some []) ∧
    reset_tasks [TaskItem.new 1 "a"] false (some "n\n") =
      some [TaskItem.new 1 "a"] ∧
    (∀ f inp, reset_tasks [] f inp = none) :=
  c8_reset_behaviour [TaskItem.new 1 "a"] (by decide)

/-- Claim C9: from the empty collection, two adds yield ids 1 and 2; after
deleting id 1 (a non-maximal id), the next add yields id 3, not 1.  More
generally, whenever a task with an id strictly below the current maximum is
deleted (and the maximum is below the u32 bound), the next `add_task`
assigns `maxId + 1`, which is never the freed id. -/
theorem c9_monotonic_id_scenario (l l' : List TaskItem) (i : Nat) (s : String)
    (hmax : maxId l < u32Mod - 1) (hi : i < maxId l)
    (hdel : delete_task l i = some l') :
    ids (add_task (add_task [] "buy milk") "walk dog") = [1, 2] ∧
    (delete_task (add_task (add_task [] "buy milk") "walk dog") 1).map
      (fun m => ids (add_task m "new")) = some [2, 3] ∧
    add_task l' s = l' ++ [{ id := maxId l + 1, task := s, done := false }] ∧
    maxId l + 1 ≠ i := by
  have hne : l ≠ [] := by
    intro e
    subst e
    simp [maxId, ids] at hi
  obtain ⟨tm, htm, htmid⟩ := maxId_mem hne
  have htm' : tm ∈ l' :=
    delete_task_mem hdel htm (by rw [htmid]; omega)
  have hle : maxId l' ≤ maxId l := by
    refine maxId_le fun t ht => ?_
    have h1 : t.id ∈ ids l' := List.mem_map_of_mem _ ht
    have h2 : t.id ∈ ids l := (delete_task_sublist hdel).subset h1
    obtain ⟨u, hu, hud⟩ := List.mem_map.mp h2
    rw [← hud]
    exact le_maxId hu
  have heq : maxId l' = maxId l :=
    Nat.le_antisymm hle (htmid ▸ le_maxId htm')
  refine ⟨by decide, by decide, ?_, by omega⟩
  unfold add_task TaskItem.new
  rw [heq, Nat.mod_eq_of_lt (by unfold u32Mod at *; omega)]

/-- Witness for `c9_monotonic_id_scenario` at a concrete two-task
collection. -/
theorem c9_monotonic_id_scenario_witness :
    ids (add_task (add_task [] "buy milk") "walk dog") = [1, 2] ∧
    (delete_task (add_task (add_task [] "buy milk") "walk dog") 1).map
      (fun m => ids (add_task m "new")) = some [2, 3] ∧
    add_task [TaskItem.new 2 "y"] "new" =
      [TaskItem.new 2 "y"] ++
        [{ id := maxId [TaskItem.new 1 "x", TaskItem.new 2 "y"] + 1,
           task := "new", done := false }] ∧
    maxId [TaskItem.new 1 "x", TaskItem.new 2 "y"] + 1 ≠ 1 :=
  c9_monotonic_id_scenario [TaskItem.new 1 "x", TaskItem.new 2 "y"]
    [TaskItem.new 2 "y"] 1 "new" (by decide) (by decide) (by decide)

/-- Claim C10: the id computation of `add_task` is u32 arithmetic — on every
collection of valid u32 ids that contains a task with id `2^32 - 1`, the
maximum id is `2^32 - 1`, `max_id + 1` wraps and the appended task gets
id `0`, strictly below the positive current maximum: the monotonic-id and
uniqueness guarantees of Add require the maximum id to stay strictly below
`2^32 - 1`. -/
theorem c10_add_overflow (l : List TaskItem) (s : String)
    (hmem : ∃ t ∈ l, t.id = u32Mod - 1) (hvalid : ∀ t ∈ l, t.id < u32Mod) :
    maxId l = u32Mod - 1 ∧
    add_task l s = l ++ [{ id := 0, task := s, done := false }] ∧
    0 < maxId l := by
  obtain ⟨t, ht, hid⟩ := hmem
  have h1 : u32Mod - 1 ≤ maxId l := hid ▸ le_maxId ht
  have h2 : maxId l ≤ u32Mod - 1 := by
    refine maxId_le fun u hu => ?_
    have := hvalid u hu
    unfold u32Mod at *
    omega
  have heq : maxId l = u32Mod - 1 := Nat.le_antisymm h2 h1
  refine ⟨heq, ?_, by unfold u32Mod at *; omega⟩
  unfold add_task TaskItem.new
  rw [heq]
  have hz : (u32Mod - 1 + 1) % u32Mod = 0 := by
    unfold u32Mod
    omega
  rw [hz]

/-- Witness for `c10_add_overflow` at a concrete one-task collection holding
the maximal u32 id. -/
theorem c10_add_overflow_witness :
    maxId [TaskItem.new 4294967295 "a"] = u32Mod - 1 ∧
    add_task [TaskItem.new 4294967295 "a"] "b" =
      [TaskItem.new 4294967295 "a"] ++
        [{ id := 0, task := "b", done := false }] ∧
    0 < maxId [TaskItem.new 4294967295 "a"] :=
  c10_add_overflow [TaskItem.new 4294967295 "a"] "b"
    ⟨TaskItem.new 4294967295 "a", by decide, by decide⟩ (by decide)

end Taskrs
